import Mathlib

/-!
Verification development for nanodb (src/main.c), a line-oriented command
interpreter.  The C program is embedded shallowly: the per-line processing
(strtok tokenization, atoi conversion, dispatch on the first token) becomes
pure Lean functions on strings, the command loop becomes a recursion over the
list of logical input lines, and the fgets input reader becomes a function on
the raw character stream.  Output is modelled as the list of strings emitted
by the printf calls, in order.
-/

namespace NanoDB

/-- The prompt string printed by the program before the loop and at the end of
each iteration that does not hit a continue or a break (main.c lines 17, 51). -/
def prompt : String := "NanoDB> "

/-- The whitespace characters skipped by the leading-whitespace phase of the C
library conversion atoi (isspace in the C locale). -/
def isCWhitespace (c : Char) : Bool :=
  c = ' ' || c = '\t' || c = '\n' || c = '\x0b' || c = '\x0c' || c = '\r'

/-- The digit-accumulation phase of atoi: consume leading decimal digits,
accumulating the value, and stop at the first non-digit.  C int overflow is
undefined behaviour and is not modelled; the value is an unbounded integer. -/
def digitsVal : List Char → Int → Int
  | c :: cs, acc =>
      if c.isDigit then digitsVal cs (acc * 10 + ((c.toNat : Int) - ('0'.toNat : Int)))
      else acc
  | [], acc => acc

/-- The C library conversion atoi on a character list: skip leading whitespace,
read an optional sign, then accumulate leading decimal digits; every input with
no leading digit after the optional sign converts to 0 (main.c line 39). -/
def atoiList (cs : List Char) : Int :=
  match cs.dropWhile isCWhitespace with
  | [] => 0
  | c :: rest =>
      if c = '-' then - digitsVal rest 0
      else if c = '+' then digitsVal rest 0
      else digitsVal (c :: rest) 0

/-- atoi on a string, as applied to the id token (main.c line 39). -/
def atoi (s : String) : Int := atoiList s.toList

/-- Accumulator-passing scan modelling the repeated strtok(buf, " ") calls of
main.c lines 25 and 33-35: the delimiter set is the single space character, a
token is a maximal run of non-space characters, and runs of delimiters produce
no empty tokens.  The second argument is the reversed current partial token. -/
def tokenizeAux : List Char → List Char → List (List Char)
  | [], cur => if cur = [] then [] else [cur.reverse]
  | c :: cs, cur =>
      if c = ' ' then
        if cur = [] then tokenizeAux cs []
        else cur.reverse :: tokenizeAux cs []
      else tokenizeAux cs (c :: cur)

/-- The token list that the sequence of strtok(buf, " ") calls yields for a
line (after the newline was already stripped, main.c line 23). -/
def tokenize (line : String) : List String :=
  (tokenizeAux line.toList []).map (fun cs => String.mk cs)

/-- One step of the dispatcher: what processing a single logical line does. -/
inductive Action where
  | quitLoop
  | silentContinue
  | printLine (s : String)
deriving DecidableEq

/-- Declared capacity of the username field of struct Row (main.c line 8). -/
def usernameCapacity : Nat := 32

/-- Declared capacity of the email field of struct Row (main.c line 9). -/
def emailCapacity : Nat := 255

/-- Bytes written by strcpy for a given token: every character plus the
terminating NUL (main.c lines 40-41 perform no length check). -/
def strcpyBytes (tok : String) : Nat := tok.length + 1

/-- The output line printed by a successful insert (main.c lines 42-43):
the id token converted by atoi and the username and email tokens echoed
verbatim (for tokens that fit their fields, the strcpy round trip through
struct Row is the identity on the token). -/
def insertMsg (idStr user email : String) : String :=
  "inserted ID " ++ toString (atoi idStr) ++ ", user " ++ user ++ ", email " ++ email

/-- The fixed-text message for an insert with missing arguments (main.c line 45). -/
def syntaxErrMsg : String := "syntax error: insert <id> <username> <email>"

/-- The diagnostic for an unknown first token (main.c line 48). -/
def unrecognizedMsg (cmd : String) : String :=
  "Unrecognized command \x27" ++ cmd ++ "\x27."

/-- The dispatcher of main.c lines 25-49: tokenize the line; with no token,
continue silently (skipping the prompt at line 51); on first token q or quit,
break; on insert, take up to three further tokens and either print the insert
echo or the fixed-text message; otherwise print the unrecognized diagnostic. -/
def dispatch (line : String) : Action :=
  match tokenize line with
  | [] => Action.silentContinue
  | cmd :: args =>
      if cmd = "q" ∨ cmd = "quit" then Action.quitLoop
      else if cmd = "insert" then
        match args with
        | idStr :: user :: email :: _ => Action.printLine (insertMsg idStr user email)
        | _ => Action.printLine syntaxErrMsg
      else Action.printLine (unrecognizedMsg cmd)

/-- The printf output emitted while processing one line that does not break the
loop: a printed diagnostic or echo (with its trailing newline) is followed by
the prompt of line 51; a silent continue emits nothing, the prompt included,
because the continue at line 27 jumps over line 51. -/
def processLine (line : String) : List String :=
  match dispatch line with
  | Action.quitLoop => []
  | Action.silentContinue => []
  | Action.printLine s => [s ++ "\n", prompt]

/-- The output of the command loop on a list of logical input lines: an empty
list of remaining lines is end-of-input (fgets returns NULL and the loop
breaks); a quitting line breaks with no further output; otherwise the line is
processed and the loop continues. -/
def runLines : List String → List String
  | [] => []
  | line :: rest =>
      match dispatch line with
      | Action.quitLoop => []
      | Action.silentContinue => runLines rest
      | Action.printLine s => (s ++ "\n") :: prompt :: runLines rest

/-- The whole observable output of the program on a list of logical lines:
the initial prompt of main.c line 17 followed by the loop output. -/
def programOutput (lines : List String) : List String :=
  prompt :: runLines lines

/-- One fgets(buf, 256, stdin) call on a stream with at least one character
available: read characters until a newline has been read (the newline is
stored) or 255 characters have been read, and return the stored characters
together with the unread remainder of the stream. -/
def readChunk : Nat → List Char → List Char × List Char
  | 0, s => ([], s)
  | _ + 1, [] => ([], [])
  | n + 1, c :: cs =>
      if c = '\n' then ([c], cs)
      else
        let p := readChunk n cs
        (c :: p.1, p.2)

/-- fgets(buf, 256, stdin) on the raw input stream: NULL (none) at
end-of-stream, otherwise up to 255 characters as one buffer load. -/
def fgetsModel (s : List Char) : Option (List Char × List Char) :=
  match s with
  | [] => none
  | c :: cs => some (readChunk 255 (c :: cs))

/-- buf[strcspn(buf, "\x5cn")] = 0 (main.c line 23): the buffer is truncated at
the first newline; a buffer holding no newline is unchanged. -/
def stripAtNewline (cs : List Char) : List Char :=
  cs.takeWhile (fun c => c != '\n')

/-- Maximal runs of non-delimiter characters, stated the way the specification
describes a tokenizer: skip delimiters, then a token extends as far as the
non-delimiter characters do, and scanning resumes after it.  Used as the
specification-side description against which the strtok embedding is checked. -/
def runsSpec (p : Char → Bool) : List Char → List (List Char)
  | [] => []
  | c :: cs =>
      if p c then runsSpec p cs
      else (c :: cs.takeWhile (fun x => !p x)) :: runsSpec p (cs.dropWhile (fun x => !p x))
termination_by cs => cs.length
decreasing_by
  · simp only [List.length_cons]
    exact Nat.lt_succ_of_le (Nat.le_refl _)
  · simp only [List.length_cons]
    have hle : ∀ l : List Char, (l.dropWhile (fun x => !p x)).length ≤ l.length := by
      intro l
      induction l with
      | nil => simp [List.dropWhile]
      | cons a as ih =>
          rw [List.dropWhile_cons]
          by_cases ha : (!p a) = true
          · simp only [ha, if_true]
            exact Nat.le_succ_of_le ih
          · simp only [ha]
            simp
    exact Nat.lt_succ_of_le (hle _)

/-- Specification-side notion of valid numeric text for a whole token: an
optional sign followed by one or more decimal digits and nothing else. -/
def validNumericText (s : String) : Bool :=
  match s.toList with
  | '-' :: rest => rest ≠ [] && rest.all Char.isDigit
  | '+' :: rest => rest ≠ [] && rest.all Char.isDigit
  | l => l ≠ [] && l.all Char.isDigit

/-- Whether atoi finds at least one digit to convert: after leading whitespace
and an optional sign, the next character is a decimal digit. -/
def hasDigitPrefix (s : String) : Bool :=
  match s.toList.dropWhile isCWhitespace with
  | [] => false
  | c :: rest => if c = '-' ∨ c = '+' then (rest.headD ' ').isDigit else c.isDigit

/-! Helper lemmas shared by the claim theorems. -/

/-- Appending a space in front of the scan with an empty partial token changes
nothing: strtok skips leading delimiters. -/
theorem tokenizeAux_space (cs : List Char) : tokenizeAux (' ' :: cs) [] = tokenizeAux cs [] := by
  simp [tokenizeAux]

/-- With a nonempty partial token, the scan closes that token by extending it
with the longest run of non-space characters and resumes on the remainder. -/
theorem tokenizeAux_run (cs : List Char) (cur : List Char) (h : cur ≠ []) :
    tokenizeAux cs cur =
      (cur.reverse ++ cs.takeWhile (fun x => !(x == ' '))) ::
        tokenizeAux (cs.dropWhile (fun x => !(x == ' '))) [] := by
  induction cs generalizing cur with
  | nil => simp [tokenizeAux, h]
  | cons c cs ih =>
      by_cases hc : c = ' '
      · subst hc
        simp [tokenizeAux, h, List.takeWhile_cons, List.dropWhile_cons, tokenizeAux_space]
      · have hb : ((c == ' ') : Bool) = false := by simp [hc]
        simp [tokenizeAux, hc, List.takeWhile_cons, List.dropWhile_cons, hb,
          ih (c :: cur) (by simp)]

/-- The strtok scan computes exactly the maximal runs of non-space characters
(fuel-indexed induction on the length of the character list). -/
theorem tokenizeAux_eq_runsSpec (n : Nat) :
    ∀ cs : List Char, cs.length ≤ n → tokenizeAux cs [] = runsSpec (fun c => c == ' ') cs := by
  induction n with
  | zero =>
      intro cs hcs
      cases cs with
      | nil => simp [tokenizeAux, runsSpec]
      | cons c cs' => simp at hcs
  | succ n ih =>
      intro cs hcs
      cases cs with
      | nil => simp [tokenizeAux, runsSpec]
      | cons c cs' =>
          by_cases hc : c = ' '
          · subst hc
            rw [tokenizeAux_space]
            have h1 : runsSpec (fun c => c == ' ') (' ' :: cs')
                = runsSpec (fun c => c == ' ') cs' := by
              rw [runsSpec]
              simp
            rw [h1]
            exact ih cs' (Nat.le_of_succ_le_succ hcs)
          · have hb : ((c == ' ') : Bool) = false := by simp [hc]
            have h2 : runsSpec (fun x => x == ' ') (c :: cs') =
                (c :: cs'.takeWhile (fun x => !(x == ' '))) ::
                  runsSpec (fun x => x == ' ') (cs'.dropWhile (fun x => !(x == ' '))) := by
              rw [runsSpec]
              simp [hb]
            rw [h2]
            have h3 : tokenizeAux (c :: cs') [] = tokenizeAux cs' [c] := by
              simp [tokenizeAux, hc]
            rw [h3, tokenizeAux_run cs' [c] (by simp)]
            have hle : (cs'.dropWhile (fun x => !(x == ' '))).length ≤ cs'.length := by
              clear ih h3 h2 hb hc hcs
              induction cs' with
              | nil => simp [List.dropWhile]
              | cons a as ih2 =>
                  rw [List.dropWhile_cons]
                  by_cases ha : (!(a == ' ')) = true
                  · simp only [ha, if_true]
                    exact Nat.le_succ_of_le ih2
                  · simp only [ha]
                    simp
            rw [ih (cs'.dropWhile (fun x => !(x == ' ')))
              (Nat.le_trans hle (Nat.le_of_succ_le_succ hcs))]
            simp

/-- A line consisting only of space characters tokenizes to no tokens at all:
strtok returns NULL on the first call. -/
theorem tokenize_of_all_spaces (cs : List Char) (h : ∀ c ∈ cs, c = ' ') :
    tokenizeAux cs [] = [] := by
  induction cs with
  | nil => rfl
  | cons c cs ih =>
      have hc : c = ' ' := h c (by simp)
      subst hc
      rw [tokenizeAux_space]
      exact ih (fun d hd => h d (by simp [hd]))

/-- When atoi finds no digit after the leading whitespace and the optional
sign, the converted value is zero. -/
theorem atoi_zero_of_no_digit (s : String) (h : hasDigitPrefix s = false) : atoi s = 0 := by
  unfold atoi atoiList
  unfold hasDigitPrefix at h
  rcases hws : s.toList.dropWhile isCWhitespace with _ | ⟨c, tl⟩
  · rfl
  · rw [hws] at h
    clear hws
    replace h : (if c = '-' ∨ c = '+' then (tl.headD ' ').isDigit else c.isDigit) = false := h
    show (if c = '-' then - digitsVal tl 0
        else if c = '+' then digitsVal tl 0 else digitsVal (c :: tl) 0) = 0
    by_cases hsign : c = '-' ∨ c = '+'
    · rw [if_pos hsign] at h
      rcases tl with _ | ⟨d, r⟩
      · rcases hsign with hs | hs <;> subst hs <;> simp [digitsVal]
      · replace h : d.isDigit = false := h
        rcases hsign with hs | hs <;> subst hs <;> simp [digitsVal, h]
    · rw [if_neg hsign] at h
      have hm : ¬ c = '-' := fun hcc => hsign (Or.inl hcc)
      have hp : ¬ c = '+' := fun hcc => hsign (Or.inr hcc)
      rw [if_neg hm, if_neg hp]
      simp [digitsVal, h]

/-- The fgets loop body on a physical line with no newline among its first
characters: when at least n characters precede the newline, a read with
capacity n consumes exactly the first n characters and leaves the rest of the
stream, the newline included, unread. -/
theorem readChunk_no_newline (n : Nat) :
    ∀ line rest : List Char, (∀ c ∈ line, c ≠ '\n') → n ≤ line.length →
      readChunk n (line ++ '\n' :: rest) = (line.take n, line.drop n ++ '\n' :: rest) := by
  induction n with
  | zero =>
      intro line rest h hlen
      simp [readChunk]
  | succ n ih =>
      intro line rest h hlen
      cases line with
      | nil => simp at hlen
      | cons c cs =>
          have hc : c ≠ '\n' := h c (by simp)
          have ih2 := ih cs rest (fun d hd => h d (by simp [hd])) (Nat.le_of_succ_le_succ hlen)
          simp [readChunk, hc, ih2]

/-! The claims. -/

/-- Claim C1: an input line whose tokens are insert followed by exactly three
argument tokens, each fitting its fixed field, prints exactly one line of the
form inserted ID n, user username, email email, where n is the atoi conversion
of the first argument and the other two tokens are echoed verbatim, followed by
the next prompt. -/
theorem insert_echoes_three_tokens (line a u e : String)
    (h : tokenize line = ["insert", a, u, e])
    (_hu : strcpyBytes u ≤ usernameCapacity) (_he : strcpyBytes e ≤ emailCapacity) :
    processLine line = [insertMsg a u e ++ "\n", prompt] ∧
    insertMsg a u e = "inserted ID " ++ toString (atoi a) ++ ", user " ++ u ++ ", email " ++ e := by
  have hd : dispatch line = Action.printLine (insertMsg a u e) := by
    simp [dispatch, h]
  exact ⟨by simp [processLine, hd], rfl⟩

/-- Witness for claim C1 at the example of the specification: the line
insert 1 alice alice@example.com produces the documented output. -/
theorem insert_echoes_three_tokens_witness :
    tokenize "insert 1 alice alice@example.com" = ["insert", "1", "alice", "alice@example.com"] ∧
    strcpyBytes "alice" ≤ usernameCapacity ∧
    strcpyBytes "alice@example.com" ≤ emailCapacity ∧
    processLine "insert 1 alice alice@example.com" =
      ["inserted ID 1, user alice, email alice@example.com\n", prompt] := by
  have h : tokenize "insert 1 alice alice@example.com"
      = ["insert", "1", "alice", "alice@example.com"] := by decide
  have hu : strcpyBytes "alice" ≤ usernameCapacity := by decide
  have he : strcpyBytes "alice@example.com" ≤ emailCapacity := by decide
  have m := insert_echoes_three_tokens "insert 1 alice alice@example.com"
    "1" "alice" "alice@example.com" h hu he
  refine ⟨h, hu, he, ?_⟩
  rw [m.1]
  decide

/-- Claim C2, counterexample: the tokenizer does not split on every whitespace
character.  A tab does not separate tokens: the line a-tab-b yields the single
token a-tab-b rather than the two tokens a and b, because strtok is called with
the delimiter set consisting of the space character only. -/
theorem tokenizer_tab_cex :
    tokenize "a\tb" = ["a\tb"] ∧ tokenize "a\tb" ≠ ["a", "b"] := by
  exact ⟨by decide, by decide⟩

/-- Claim C2 (amended): the tokenizer splits a line into maximal runs of
non-space characters; only the space character separates tokens, and other
whitespace characters such as tab do not. -/
theorem tokenizer_space_runs (line : String) :
    tokenize line = (runsSpec (fun c => c == ' ') line.toList).map (fun cs => String.mk cs) := by
  unfold tokenize
  rw [tokenizeAux_eq_runsSpec line.toList.length line.toList (Nat.le_refl _)]

/-- Claim C3, counterexample: on the empty line the program does not print the
prompt again before the next read (the continue at main.c line 27 skips the
printf at line 51), so a session of an empty line followed by q emits nothing
beyond the initial prompt; and a tab-only line, though whitespace-only, is
treated as an unrecognized command and produces an error diagnostic. -/
theorem reprompt_cex :
    programOutput ["", "q"] = [prompt] ∧
    programOutput ["\t", "q"] = [prompt, "Unrecognized command \x27\t\x27.\n", prompt] := by
  exact ⟨by decide, by decide⟩

/-- Claim C3 (amended): on a line that is empty or consists only of space
characters the program produces no output at all, the prompt included, and the
loop silently continues with the next line; whitespace-only lines containing
other whitespace characters are instead dispatched as commands. -/
theorem blank_line_silent (line : String) (h : ∀ c ∈ line.toList, c = ' ') :
    processLine line = [] ∧ ∀ rest, runLines (line :: rest) = runLines rest := by
  have ht : tokenize line = [] := by
    unfold tokenize
    rw [tokenize_of_all_spaces line.toList h]
    rfl
  have hd : dispatch line = Action.silentContinue := by
    simp [dispatch, ht]
  exact ⟨by simp [processLine, hd], fun rest => by simp [runLines, hd]⟩

/-- Witness for claim C3 as amended, at a line of two spaces. -/
theorem blank_line_silent_witness :
    (∀ c ∈ ("  " : String).toList, c = ' ') ∧
    processLine "  " = [] ∧ runLines ["  ", "q"] = runLines ["q"] := by
  have h : ∀ c ∈ ("  " : String).toList, c = ' ' := by decide
  have m := blank_line_silent "  " h
  exact ⟨h, m.1, m.2 ["q"]⟩

/-- Claim C4: an insert with fewer than three argument tokens prints the
literal fixed-text message naming the expected form, and the loop continues. -/
theorem insert_missing_args_message (line : String) (args : List String)
    (h : tokenize line = "insert" :: args) (hlen : args.length < 3) :
    processLine line = [syntaxErrMsg ++ "\n", prompt] ∧
    syntaxErrMsg = "syntax error: insert <id> <username> <email>" ∧
    ∀ rest, runLines (line :: rest) = processLine line ++ runLines rest := by
  have hd : dispatch line = Action.printLine syntaxErrMsg := by
    rcases args with _ | ⟨a, _ | ⟨b, _ | ⟨c, rest⟩⟩⟩
    · simp [dispatch, h]
    · simp [dispatch, h]
    · simp [dispatch, h]
    · simp only [List.length_cons] at hlen
      omega
  exact ⟨by simp [processLine, hd], rfl, fun rest => by simp [runLines, processLine, hd]⟩

/-- Witness for claim C4 at the bare line insert, which has no arguments. -/
theorem insert_missing_args_message_witness :
    tokenize "insert" = ["insert"] ∧
    processLine "insert" = ["syntax error: insert <id> <username> <email>\n", prompt] ∧
    runLines ["insert", "q"] = processLine "insert" ++ runLines ["q"] := by
  have h : tokenize "insert" = "insert" :: [] := by decide
  have m := insert_missing_args_message "insert" [] h (by decide)
  refine ⟨by decide, ?_, m.2.2 ["q"]⟩
  rw [m.1]
  decide

/-- Claim C5: a nonempty line whose first token is none of insert, q and quit
prints a diagnostic that names the offending first token, and the loop
continues. -/
theorem unknown_command_diagnostic (line cmd : String) (args : List String)
    (h : tokenize line = cmd :: args)
    (h1 : cmd ≠ "insert") (h2 : cmd ≠ "q") (h3 : cmd ≠ "quit") :
    processLine line = [unrecognizedMsg cmd ++ "\n", prompt] ∧
    unrecognizedMsg cmd = "Unrecognized command \x27" ++ cmd ++ "\x27." ∧
    ∀ rest, runLines (line :: rest) = processLine line ++ runLines rest := by
  have hd : dispatch line = Action.printLine (unrecognizedMsg cmd) := by
    simp [dispatch, h, h1, h2, h3]
  exact ⟨by simp [processLine, hd], rfl, fun rest => by simp [runLines, processLine, hd]⟩

/-- Witness for claim C5 at the example of the specification: the line foobar
produces a diagnostic naming foobar. -/
theorem unknown_command_diagnostic_witness :
    tokenize "foobar" = ["foobar"] ∧
    processLine "foobar" = ["Unrecognized command \x27foobar\x27.\n", prompt] ∧
    runLines ["foobar", "q"] = processLine "foobar" ++ runLines ["q"] := by
  have h : tokenize "foobar" = "foobar" :: [] := by decide
  have m := unknown_command_diagnostic "foobar" "foobar" [] h
    (by decide) (by decide) (by decide)
  refine ⟨by decide, ?_, m.2.2 ["q"]⟩
  rw [m.1]
  decide

/-- Claim C6, counterexample: the claim that a first argument that is not valid
numeric text echoes ID zero fails on 12abc, which is not valid numeric text yet
is converted by atoi to its numeric prefix 12, so the echoed ID is 12, not 0. -/
theorem permissive_atoi_cex :
    validNumericText "12abc" = false ∧
    atoi "12abc" = 12 ∧
    atoi "12abc" ≠ 0 ∧
    processLine "insert 12abc alice a@b" = ["inserted ID 12, user alice, email a@b\n", prompt] := by
  refine ⟨by decide, by decide, by decide, by decide⟩

/-- Claim C6 (amended): an insert with three argument tokens is accepted
whatever the first token looks like; the echoed ID is the permissive atoi
conversion of that token, and whenever atoi finds no digit after the optional
leading whitespace and sign the echoed ID is zero (a token such as 12abc
instead echoes the value of its digit prefix, 12). -/
theorem insert_id_atoi (line a u e : String)
    (h : tokenize line = ["insert", a, u, e]) :
    processLine line = [insertMsg a u e ++ "\n", prompt] ∧
    (hasDigitPrefix a = false → atoi a = 0) := by
  have hd : dispatch line = Action.printLine (insertMsg a u e) := by
    simp [dispatch, h]
  exact ⟨by simp [processLine, hd], fun hnd => atoi_zero_of_no_digit a hnd⟩

/-- Witness for claim C6 as amended: a wholly non-numeric first argument is
accepted and echoes ID zero. -/
theorem insert_id_atoi_witness :
    tokenize "insert zzz alice a@b" = ["insert", "zzz", "alice", "a@b"] ∧
    hasDigitPrefix "zzz" = false ∧
    atoi "zzz" = 0 ∧
    processLine "insert zzz alice a@b" = ["inserted ID 0, user alice, email a@b\n", prompt] := by
  have h : tokenize "insert zzz alice a@b" = ["insert", "zzz", "alice", "a@b"] := by decide
  have m := insert_id_atoi "insert zzz alice a@b" "zzz" "alice" "a@b" h
  refine ⟨h, by decide, m.2 (by decide), ?_⟩
  rw [m.1]
  decide

/-- Claim C7: the loop ends, with no further output, exactly at end-of-input or
at a line whose first token is q or quit: end-of-input yields no output, a
quitting line discards everything after it, any non-quitting line keeps the
loop running, and a stream that simply ends behaves like the same stream
followed by a quit line. -/
theorem loop_exit_conditions :
    runLines [] = [] ∧
    (∀ (line : String) (rest : List String) (cmd : String) (args : List String),
      tokenize line = cmd :: args → (cmd = "q" ∨ cmd = "quit") →
        runLines (line :: rest) = []) ∧
    (∀ (line : String) (rest : List String), dispatch line ≠ Action.quitLoop →
      runLines (line :: rest) = processLine line ++ runLines rest) ∧
    (∀ input : List String, runLines (input ++ ["quit"]) = runLines input) := by
  refine ⟨rfl, ?_, ?_, ?_⟩
  · intro line rest cmd args h hq
    have hd : dispatch line = Action.quitLoop := by
      rcases hq with hq | hq <;> subst hq <;> simp [dispatch, h]
    simp [runLines, hd]
  · intro line rest hd
    cases hdd : dispatch line with
    | quitLoop => exact absurd hdd hd
    | silentContinue => simp [runLines, processLine, hdd]
    | printLine s => simp [runLines, processLine, hdd]
  · intro input
    induction input with
    | nil =>
        have hd : dispatch "quit" = Action.quitLoop := by decide
        simp [runLines, hd]
    | cons l rest ih =>
        cases hdd : dispatch l with
        | quitLoop => simp [runLines, hdd]
        | silentContinue => simp [runLines, hdd, ih]
        | printLine s => simp [runLines, hdd, ih]

/-- Witness for claim C7: q discards the rest of the input, a non-quitting line
keeps the loop running, and appending quit to a quit-free stream changes
nothing. -/
theorem loop_exit_conditions_witness :
    runLines ["q", "foobar"] = [] ∧
    runLines ["insert", "q"] = processLine "insert" ++ runLines ["q"] ∧
    runLines (["foobar"] ++ ["quit"]) = runLines ["foobar"] := by
  have m := loop_exit_conditions
  exact ⟨m.2.1 "q" ["foobar"] "q" [] (by decide) (Or.inl rfl),
    m.2.2.1 "insert" ["q"] (by decide),
    m.2.2.2 ["foobar"]⟩

/-- Claim C8: the fixed maximum field lengths are not enforced.  There is an
input line, short enough to arrive in the 256-byte read buffer, that the insert
path accepts although the strcpy of its username token writes more bytes than
the 32 bytes the username field holds: the copy writes beyond the fixed bound
of the field. -/
theorem unchecked_copy_overflow :
    ∃ line u e : String,
      line.length ≤ 255 ∧
      tokenize line = ["insert", "1", u, e] ∧
      usernameCapacity < strcpyBytes u ∧
      dispatch line = Action.printLine (insertMsg "1" u e) := by
  refine ⟨"insert 1 aaaaaaaaaaaaaaaaaaaaaaaaaaaaaaaaaaaaaaaa e@x",
    "aaaaaaaaaaaaaaaaaaaaaaaaaaaaaaaaaaaaaaaa", "e@x", ?_, ?_, ?_, ?_⟩ <;> decide

/-- Claim C9: an insert line with four or more argument tokens is processed
exactly like the same line cut after its third argument: the three parsed
tokens are echoed, and the extra tokens leave no trace in the output. -/
theorem insert_extra_tokens_ignored (line a u e : String) (extra : List String)
    (h : tokenize line = "insert" :: a :: u :: e :: extra) :
    processLine line = [insertMsg a u e ++ "\n", prompt] := by
  have hd : dispatch line = Action.printLine (insertMsg a u e) := by
    simp [dispatch, h]
  simp [processLine, hd]

/-- Witness for claim C9 at a line with two extra tokens, which are ignored. -/
theorem insert_extra_tokens_ignored_witness :
    tokenize "insert 1 alice a@b x y" = ["insert", "1", "alice", "a@b", "x", "y"] ∧
    processLine "insert 1 alice a@b x y" = ["inserted ID 1, user alice, email a@b\n", prompt] := by
  have h : tokenize "insert 1 alice a@b x y"
      = "insert" :: "1" :: "alice" :: "a@b" :: ["x", "y"] := by decide
  have m := insert_extra_tokens_ignored "insert 1 alice a@b x y" "1" "alice" "a@b" ["x", "y"] h
  refine ⟨by decide, ?_⟩
  rw [m]
  decide

/-- Claim C10: a physical line of at least 255 bytes before its newline is not
read whole: fgets stores exactly the first 255 bytes as one buffer load,
leaving the remaining bytes, and eventually the newline, to be read as the
start of the next line; and since that buffer load holds no newline, the
strcspn truncation leaves it intact, so exactly those 255 bytes are processed
as one command line. -/
theorem long_line_chunked (line rest : List Char)
    (h : ∀ c ∈ line, c ≠ '\n') (hlen : 255 ≤ line.length) :
    fgetsModel (line ++ '\n' :: rest) =
      some (line.take 255, line.drop 255 ++ '\n' :: rest) ∧
    stripAtNewline (line.take 255) = line.take 255 := by
  constructor
  · cases hl : line with
    | nil =>
        rw [hl] at hlen
        simp at hlen
    | cons c cs =>
        subst hl
        show some (readChunk 255 ((c :: cs) ++ '\n' :: rest)) = _
        rw [readChunk_no_newline 255 (c :: cs) rest h hlen]
  · unfold stripAtNewline
    rw [List.takeWhile_eq_self_iff]
    intro a ha
    have haline : a ∈ line := List.take_subset 255 line ha
    simp [h a haline]

/-- Witness for claim C10 at a physical line of 300 letters: the reader takes
the first 255 of them and leaves the other 45 and the newline unread. -/
theorem long_line_chunked_witness :
    (∀ c ∈ List.replicate 300 'a', c ≠ '\n') ∧
    255 ≤ (List.replicate 300 'a').length ∧
    fgetsModel (List.replicate 300 'a' ++ '\n' :: []) =
      some ((List.replicate 300 'a').take 255, (List.replicate 300 'a').drop 255 ++ '\n' :: []) := by
  have h : ∀ c ∈ List.replicate 300 'a', c ≠ '\n' := by
    intro c hc
    rw [List.eq_of_mem_replicate hc]
    decide
  have hlen : 255 ≤ (List.replicate 300 'a').length := by
    rw [List.length_replicate]
    omega
  have m := long_line_chunked (List.replicate 300 'a') [] h hlen
  exact ⟨h, hlen, m.1⟩

end NanoDB
